import Mathlib

/-!
Verification of the in-memory routing and access-control tables of the
tunnel engine: the client-side per-gateway state (`GatewayOnClient`, file
`src/rust/libs/connlib/tunnel/src/client/gateway_on_client.rs`) and the
generic bidirectional peer directory (`PeerStore`, file
`src/rust/libs/connlib/tunnel/src/peer_store.rs`).

Modelling choices:
* IPv4 / IPv6 addresses are natural numbers tagged by family (`IpAddr`);
  the family tag is what makes an IPv4 key distinct from an IPv6 key in
  the address-indexed maps, exactly as `std::net::IpAddr` does.
* `HashSet<ResourceId>` is a `Finset Nat`.
* `HashMap` and `IpNetworkTable` are association lists.  A Rust `HashMap`
  never holds two entries with the same key; where a proof needs that
  fact it takes a `StoreWF` (no-duplicate-keys) hypothesis, which every
  reachable Rust state satisfies.
* `upsert` in the source evaluates its factory closure eagerly
  (`let peer = make_peer();`), so the embedding takes the constructed
  peer value directly.
-/

/-- An IP address: an IPv4 or IPv6 address, the numeric value as a `Nat`. -/
inductive IpAddr : Type where
  | v4 (a : Nat)
  | v6 (a : Nat)
deriving DecidableEq, Repr

/-- An IP network (address plus mask length), as stored in the
`IpNetworkTable`: IPv4 or IPv6, numeric network address and mask length. -/
inductive IpNetwork : Type where
  | v4 (n : Nat) (len : Nat)
  | v6 (n : Nat) (len : Nat)
deriving DecidableEq, Repr

/-- Mask length of a network (bits of the address that are significant). -/
def IpNetwork.maskLen : IpNetwork → Nat
  | .v4 _ l => l
  | .v6 _ l => l

/-- Whether an address lies inside a network: same family and the top
`maskLen` bits agree (host bits are discarded by integer division). -/
def IpNetwork.containsAddr : IpNetwork → IpAddr → Bool
  | .v4 n l, .v4 a => decide (n / 2 ^ (32 - l) = a / 2 ^ (32 - l))
  | .v6 n l, .v6 a => decide (n / 2 ^ (128 - l) = a / 2 ^ (128 - l))
  | _, _ => false

abbrev ResourceId := Nat
abbrev GatewayId := Nat

/-- Lookup in an association list: value of the first entry with the key. -/
def mapLookup {κ β : Type} [DecidableEq κ] (k : κ) : List (κ × β) → Option β
  | [] => none
  | e :: t => if e.1 = k then some e.2 else mapLookup k t

/-- Insert into an association list, replacing the first entry with the
key in place (as a hash map updates its bucket) or appending if absent. -/
def mapInsert {κ β : Type} [DecidableEq κ] (k : κ) (v : β) : List (κ × β) → List (κ × β)
  | [] => [(k, v)]
  | e :: t => if e.1 = k then (k, v) :: t else e :: mapInsert k v t

/-- Remove every entry with the given key from an association list. -/
def mapErase {κ β : Type} [DecidableEq κ] (k : κ) (l : List (κ × β)) : List (κ × β) :=
  l.filter fun e => decide (¬ e.1 = k)

/-- The allow table of one gateway: `IpNetworkTable<HashSet<ResourceId>>`,
a list of (network, resource set) entries keyed by the exact network. -/
abbrev AllowList := List (IpNetwork × Finset ResourceId)

/-- `exact_match_mut` + insert of `GatewayOnClient::allow_ip_for_resource`:
if an entry with exactly this network exists, add the resource id to its
set; otherwise create a fresh entry with the singleton set. -/
def allowInsert (net : IpNetwork) (rid : ResourceId) : AllowList → AllowList
  | [] => [(net, {rid})]
  | e :: t => if e.1 = net then (e.1, insert rid e.2) :: t else e :: allowInsert net rid t

/-- `GatewayOnClient::remove_resource` on the table: first remove the id
from the set of every entry that contains it, then retain only the
entries whose set is non-empty. -/
def removeResourceList (rid : ResourceId) (l : AllowList) : AllowList :=
  (l.map fun e => if rid ∈ e.2 then (e.1, e.2.erase rid) else e).filter
    fun e => decide (¬ e.2 = ∅)

/-- `IpNetworkTable::longest_match`: among the entries whose network
contains the address, one with maximal mask length; `none` if no entry
matches. -/
def longest_match : AllowList → IpAddr → Option (IpNetwork × Finset ResourceId)
  | [], _ => none
  | e :: t, a =>
    match longest_match t a with
    | none => if e.1.containsAddr a then some e else none
    | some b => if e.1.containsAddr a ∧ b.1.maskLen < e.1.maskLen then some e else some b

/-- A peer's tunnel address configuration: one IPv4 and one IPv6 address. -/
structure IpConfig : Type where
  v4 : Nat
  v6 : Nat
deriving DecidableEq, Repr

/-- Modelled from the spec: `IpConfig::is_ip` lives in the tunnel crate
root, outside the provided sources.  Per the spec, a source is implicitly
trusted iff it "equals the route's own tunnel address (IPv4 or IPv6)". -/
def IpConfig.is_ip (c : IpConfig) (a : IpAddr) : Bool :=
  decide (a = IpAddr.v4 c.v4) || decide (a = IpAddr.v6 c.v6)

/-- Modelled from the spec: `crate::gateway::TUN_DNS_PORT` is defined
outside the provided sources; the spec only requires "a fixed, well-known
tunnel-internal DNS port", so the concrete value is immaterial. -/
def TUN_DNS_PORT : Nat := 53

/-- The part of `IpPacket` this code reads: its source address. -/
structure IpPacket : Type where
  source : IpAddr
deriving DecidableEq, Repr

/-- The error payload of `ensure_allowed_src`: the rejected source. -/
structure NotAllowedResource : Type where
  addr : IpAddr
deriving DecidableEq, Repr

/-- A socket address: IP plus port. -/
structure SocketAddr : Type where
  ip : IpAddr
  port : Nat
deriving DecidableEq, Repr

/-- The state of one gateway on a client. -/
structure GatewayOnClient : Type where
  id : GatewayId
  gateway_tun : IpConfig
  allowed_ips : AllowList
deriving DecidableEq

/-- `GatewayOnClient::new`: fresh route with an empty allow table. -/
def GatewayOnClient.new (id : GatewayId) (gateway_tun : IpConfig) : GatewayOnClient :=
  GatewayOnClient.mk id gateway_tun []

/-- `GatewayOnClient::allow_ip_for_resource`. -/
def GatewayOnClient.allow_ip_for_resource (g : GatewayOnClient) (net : IpNetwork)
    (rid : ResourceId) : GatewayOnClient :=
  GatewayOnClient.mk g.id g.gateway_tun (allowInsert net rid g.allowed_ips)

/-- `GatewayOnClient::remove_resource`. -/
def GatewayOnClient.remove_resource (g : GatewayOnClient) (rid : ResourceId) : GatewayOnClient :=
  GatewayOnClient.mk g.id g.gateway_tun (removeResourceList rid g.allowed_ips)

/-- `GatewayOnClient::ensure_allowed_src`: trust the gateway's own tunnel
addresses unconditionally; otherwise reject iff the longest-prefix match
of the source against the allow table is `none`. -/
def GatewayOnClient.ensure_allowed_src (g : GatewayOnClient) (packet : IpPacket) :
    Except NotAllowedResource Unit :=
  let src := packet.source
  if g.gateway_tun.is_ip src then Except.ok ()
  else if (longest_match g.allowed_ips src).isNone then Except.error (NotAllowedResource.mk src)
  else Except.ok ()

/-- `GatewayOnClient::tun_dns_server_endpoint`: rewrite the destination to
the gateway's own tunnel address of the same family, at the fixed port. -/
def GatewayOnClient.tun_dns_server_endpoint (g : GatewayOnClient) (dst : IpAddr) : SocketAddr :=
  let new_dst_ip : IpAddr :=
    match dst with
    | IpAddr.v4 _ => IpAddr.v4 g.gateway_tun.v4
    | IpAddr.v6 _ => IpAddr.v6 g.gateway_tun.v6
  SocketAddr.mk new_dst_ip TUN_DNS_PORT

/-- The `Peer` trait: a stored peer exposes its current tunnel addresses. -/
class Peer (P : Type) where
  tun_ipv4 : P → Nat
  tun_ipv6 : P → Nat

/-- The bidirectional peer directory: address → id and id → peer. -/
structure PeerStore (TId P : Type) : Type where
  id_by_ip : List (IpAddr × TId)
  peer_by_id : List (TId × P)
deriving Repr

/-- `PeerStore::upsert`.  The candidate peer is built eagerly.  If a peer
for the id exists and its tunnel address pair differs from the
candidate's, drop the existing peer's two address entries and its id
entry; then `entry(pid).or_insert(peer)` and (re-)index the stored
peer's two addresses (IPv4 first, then IPv6).  Returns the new state and
the stored peer. -/
def PeerStore.upsert {TId P : Type} [DecidableEq TId] [Peer P] (s : PeerStore TId P)
    (pid : TId) (peer : P) : PeerStore TId P × P :=
  let s1 : PeerStore TId P :=
    match mapLookup pid s.peer_by_id with
    | some existing =>
      if Peer.tun_ipv4 existing ≠ Peer.tun_ipv4 peer ∨
          Peer.tun_ipv6 existing ≠ Peer.tun_ipv6 peer then
        PeerStore.mk
          (mapErase (IpAddr.v6 (Peer.tun_ipv6 existing))
            (mapErase (IpAddr.v4 (Peer.tun_ipv4 existing)) s.id_by_ip))
          (mapErase pid s.peer_by_id)
      else s
    | none => s
  let stored : P := (mapLookup pid s1.peer_by_id).getD peer
  let pbi : List (TId × P) :=
    match mapLookup pid s1.peer_by_id with
    | some _ => s1.peer_by_id
    | none => mapInsert pid peer s1.peer_by_id
  (PeerStore.mk
    (mapInsert (IpAddr.v6 (Peer.tun_ipv6 stored)) pid
      (mapInsert (IpAddr.v4 (Peer.tun_ipv4 stored)) pid s1.id_by_ip))
    pbi, stored)

/-- `PeerStore::remove`: drop every address entry pointing at the id,
remove and return the id's peer. -/
def PeerStore.remove {TId P : Type} [DecidableEq TId] (s : PeerStore TId P) (id : TId) :
    PeerStore TId P × Option P :=
  (PeerStore.mk (s.id_by_ip.filter fun e => decide (¬ e.2 = id)) (mapErase id s.peer_by_id),
    mapLookup id s.peer_by_id)

/-- `PeerStore::extract_if`: remove (and return) every peer satisfying
the predicate, then retain only the address entries whose target id
still has a stored peer. -/
def PeerStore.extract_if {TId P : Type} [DecidableEq TId] (s : PeerStore TId P)
    (f : TId → P → Bool) : PeerStore TId P × List (TId × P) :=
  let removed := s.peer_by_id.filter fun e => f e.1 e.2
  let pbi := s.peer_by_id.filter fun e => ! f e.1 e.2
  let ibi := s.id_by_ip.filter fun e => (mapLookup e.2 pbi).isSome
  (PeerStore.mk ibi pbi, removed)

/-- `PeerStore::peer_by_id` (the accessor method): lookup by identity. -/
def PeerStore.lookupId {TId P : Type} [DecidableEq TId] (s : PeerStore TId P) (id : TId) :
    Option P :=
  mapLookup id s.peer_by_id

/-- `PeerStore::peer_by_ip`: resolve an address through the two-level
index (`id_by_ip` then `peer_by_id`). -/
def PeerStore.peer_by_ip {TId P : Type} [DecidableEq TId] (s : PeerStore TId P) (ip : IpAddr) :
    Option P :=
  (mapLookup ip s.id_by_ip).bind fun id => mapLookup id s.peer_by_id

/-- `PeerStore::clear`: empty both maps. -/
def PeerStore.clear {TId P : Type} (_ : PeerStore TId P) : PeerStore TId P :=
  PeerStore.mk [] []

/-- The address-index invariant (spec invariant 2): every `(addr, id)`
entry of `id_by_ip` points at a stored peer one of whose current tunnel
addresses is `addr`. -/
def AddrInv {TId P : Type} [DecidableEq TId] [Peer P] (s : PeerStore TId P) : Prop :=
  ∀ a id, (a, id) ∈ s.id_by_ip →
    ∃ p, mapLookup id s.peer_by_id = some p ∧
      (a = IpAddr.v4 (Peer.tun_ipv4 p) ∨ a = IpAddr.v6 (Peer.tun_ipv6 p))

/-- Well-formedness every Rust state has: a `HashMap` never holds two
entries with the same key. -/
def StoreWF {TId P : Type} (s : PeerStore TId P) : Prop :=
  (s.id_by_ip.map Prod.fst).Nodup ∧ (s.peer_by_id.map Prod.fst).Nodup

/-- Concrete peer shape for witnesses, mirroring the `DummyPeer` of the
source's tests: an opaque payload plus the two tunnel addresses. -/
structure DummyPeer : Type where
  name : Nat
  v4 : Nat
  v6 : Nat
deriving DecidableEq, Repr

instance : Peer DummyPeer where
  tun_ipv4 := DummyPeer.v4
  tun_ipv6 := DummyPeer.v6

/-! ### Concrete fixtures for scenario conjuncts and witnesses.
Numeric addresses: 10.0.0.0 = 167772160, 10.0.0.5 = 167772165,
10.0.1.5 = 167772421, 192.168.0.0 = 3232235520, 192.168.0.7 = 3232235527,
100.64.0.1 = 1684300801. -/

/-- The route of the spec scenario: fresh, own tunnel addresses 100.64.0.1
and ::1, then `allow(10.0.0.0/24, 42)`. -/
def gScenario : GatewayOnClient :=
  (GatewayOnClient.new 7 (IpConfig.mk 1684300801 1)).allow_ip_for_resource
    (IpNetwork.v4 167772160 24) 42

/-- A route with two allow entries: 10.0.0.0/24 granted by resources
{1, 2} and 192.168.0.0/24 granted only by resource 2. -/
def gTwo : GatewayOnClient :=
  GatewayOnClient.mk 3 (IpConfig.mk 5 6)
    [(IpNetwork.v4 167772160 24, {1, 2}), (IpNetwork.v4 3232235520 24, {2})]

/-- A route holding an emptied-but-not-yet-pruned entry: the set of
resources granting 10.0.0.0/24 is empty. -/
def gEmptyEntry : GatewayOnClient :=
  GatewayOnClient.mk 7 (IpConfig.mk 1 2) [(IpNetwork.v4 167772160 24, (∅ : Finset ResourceId))]

def emptyStore : PeerStore Nat DummyPeer := PeerStore.mk [] []

def dp1 : DummyPeer := DummyPeer.mk 50 11 12
def dp2 : DummyPeer := DummyPeer.mk 51 13 12
def dpA : DummyPeer := DummyPeer.mk 60 21 22
def dpB : DummyPeer := DummyPeer.mk 61 21 22
def dp5 : DummyPeer := DummyPeer.mk 5 101 102
def dp6 : DummyPeer := DummyPeer.mk 6 103 104
def dpOwner : DummyPeer := DummyPeer.mk 70 7 8
def dpShare : DummyPeer := DummyPeer.mk 71 7 9

/-- A directory holding peers 5 (addresses 101 / 102) and 6 (103 / 104). -/
def sAB : PeerStore Nat DummyPeer :=
  PeerStore.mk
    [(IpAddr.v4 101, 5), (IpAddr.v6 102, 5), (IpAddr.v4 103, 6), (IpAddr.v6 104, 6)]
    [(5, dp5), (6, dp6)]

/-- A directory holding peer 1 with tunnel addresses 7 / 8. -/
def sOwner : PeerStore Nat DummyPeer :=
  PeerStore.mk [(IpAddr.v4 7, 1), (IpAddr.v6 8, 1)] [(1, dpOwner)]

def fAlways : Nat → DummyPeer → Bool := fun _ _ => true

def fIs5 : Nat → DummyPeer → Bool := fun id _ => id == 5

/-! ### Association-list lemmas -/

theorem mapLookup_insert_self {κ β : Type} [DecidableEq κ] (k : κ) (v : β)
    (l : List (κ × β)) : mapLookup k (mapInsert k v l) = some v := by
  induction l with
  | nil => simp [mapInsert, mapLookup]
  | cons e t ih =>
    by_cases h : e.1 = k
    · simp [mapInsert, mapLookup, h]
    · simp [mapInsert, mapLookup, h, ih]

theorem mapLookup_insert_other {κ β : Type} [DecidableEq κ] {k k2 : κ} (v : β)
    (l : List (κ × β)) (h : k2 ≠ k) : mapLookup k2 (mapInsert k v l) = mapLookup k2 l := by
  induction l with
  | nil => simp [mapInsert, mapLookup, Ne.symm h]
  | cons e t ih =>
    by_cases he : e.1 = k
    · simp [mapInsert, mapLookup, he, Ne.symm h]
    · simp [mapInsert, mapLookup, he, ih]

theorem mem_mapInsert {κ β : Type} [DecidableEq κ] {k : κ} {v : β} {e : κ × β}
    {l : List (κ × β)} (h : e ∈ mapInsert k v l) : e = (k, v) ∨ e ∈ l := by
  induction l with
  | nil => simpa [mapInsert] using h
  | cons e2 t ih =>
    by_cases he : e2.1 = k
    · rw [mapInsert] at h
      simp only [he, if_true] at h
      rcases List.mem_cons.mp h with h1 | h1
      · exact Or.inl h1
      · exact Or.inr (List.mem_cons_of_mem _ h1)
    · rw [mapInsert] at h
      simp only [he, if_false] at h
      rcases List.mem_cons.mp h with h1 | h1
      · exact Or.inr (h1 ▸ List.mem_cons_self _ _)
      · rcases ih h1 with h2 | h2
        · exact Or.inl h2
        · exact Or.inr (List.mem_cons_of_mem _ h2)

theorem mem_mapErase {κ β : Type} [DecidableEq κ] {k : κ} {e : κ × β} {l : List (κ × β)} :
    e ∈ mapErase k l ↔ e ∈ l ∧ e.1 ≠ k := by
  simp [mapErase, List.mem_filter]

theorem mapLookup_erase_self {κ β : Type} [DecidableEq κ] (k : κ) (l : List (κ × β)) :
    mapLookup k (mapErase k l) = none := by
  induction l with
  | nil => simp [mapErase, mapLookup]
  | cons e t ih =>
    by_cases he : e.1 = k
    · simpa [mapErase, List.filter, he] using ih
    · simpa [mapErase, List.filter, he, mapLookup] using ih

theorem mapLookup_erase_other {κ β : Type} [DecidableEq κ] {k k2 : κ} (l : List (κ × β))
    (h : k2 ≠ k) : mapLookup k2 (mapErase k l) = mapLookup k2 l := by
  induction l with
  | nil => simp [mapErase, mapLookup]
  | cons e t ih =>
    by_cases he : e.1 = k
    · simpa [mapErase, List.filter, he, mapLookup, Ne.symm h] using ih
    · by_cases he2 : e.1 = k2
      · simp [mapErase, List.filter, he, mapLookup, he2, h]
      · simpa [mapErase, List.filter, he, mapLookup, he2] using ih

theorem mapLookup_mem {κ β : Type} [DecidableEq κ] {k : κ} {v : β} {l : List (κ × β)}
    (h : mapLookup k l = some v) : (k, v) ∈ l := by
  induction l with
  | nil => simp [mapLookup] at h
  | cons e t ih =>
    by_cases he : e.1 = k
    · rw [mapLookup] at h
      simp only [he, if_true, Option.some.injEq] at h
      subst h
      exact he ▸ List.mem_cons_self _ _
    · rw [mapLookup] at h
      simp only [he, if_false] at h
      exact List.mem_cons_of_mem _ (ih h)

theorem mem_mapLookup_of_nodup {κ β : Type} [DecidableEq κ] {k : κ} {v : β}
    {l : List (κ × β)} (hn : (l.map Prod.fst).Nodup) (h : (k, v) ∈ l) :
    mapLookup k l = some v := by
  induction l with
  | nil => simp at h
  | cons e t ih =>
    rw [List.map_cons, List.nodup_cons] at hn
    rcases List.mem_cons.mp h with h1 | h1
    · rw [mapLookup, ← h1]
      simp
    · have hne : ¬ e.1 = k := by
        intro hk
        exact hn.1 (hk ▸ List.mem_map.mpr ⟨(k, v), h1, rfl⟩)
      rw [mapLookup]
      simp only [hne, if_false]
      exact ih hn.2 h1

theorem mapLookup_filter_of {κ β : Type} [DecidableEq κ] {k : κ} {v : β}
    {l : List (κ × β)} (pr : κ × β → Bool) (h : mapLookup k l = some v)
    (hp : pr (k, v) = true) : mapLookup k (l.filter pr) = some v := by
  induction l with
  | nil => simp [mapLookup] at h
  | cons e t ih =>
    by_cases he : e.1 = k
    · rw [mapLookup] at h
      simp only [he, if_true, Option.some.injEq] at h
      have hev : e = (k, v) := Prod.ext he h
      rw [List.filter, hev, hp, mapLookup]
      simp
    · rw [mapLookup] at h
      simp only [he, if_false] at h
      cases hpe : pr e with
      | true => simpa [List.filter, hpe, mapLookup, he] using ih h
      | false => simpa [List.filter, hpe] using ih h

theorem mapInsert_self {κ β : Type} [DecidableEq κ] {k : κ} {v : β} {l : List (κ × β)}
    (h : mapLookup k l = some v) : mapInsert k v l = l := by
  induction l with
  | nil => simp [mapLookup] at h
  | cons e t ih =>
    by_cases he : e.1 = k
    · rw [mapLookup] at h
      simp only [he, if_true, Option.some.injEq] at h
      rw [mapInsert]
      simp only [he, if_true]
      rw [← h, ← he]
    · rw [mapLookup] at h
      simp only [he, if_false] at h
      rw [mapInsert]
      simp only [he, if_false, ih h]

/-! ### Longest-prefix-match lemmas -/

theorem longest_match_cons_none {t : AllowList} {a : IpAddr}
    (e : IpNetwork × Finset ResourceId) (h : longest_match t a = none) :
    longest_match (e :: t) a = if e.1.containsAddr a then some e else none := by
  rw [longest_match, h]

theorem longest_match_cons_some {t : AllowList} {a : IpAddr}
    (e : IpNetwork × Finset ResourceId) {b : IpNetwork × Finset ResourceId}
    (h : longest_match t a = some b) :
    longest_match (e :: t) a =
      if e.1.containsAddr a ∧ b.1.maskLen < e.1.maskLen then some e else some b := by
  rw [longest_match, h]

theorem longest_match_mem {l : AllowList} {a : IpAddr} {b : IpNetwork × Finset ResourceId}
    (h : longest_match l a = some b) : b ∈ l ∧ b.1.containsAddr a = true := by
  induction l with
  | nil => simp [longest_match] at h
  | cons e t ih =>
    cases ht : longest_match t a with
    | none =>
      rw [longest_match_cons_none e ht] at h
      by_cases hc : e.1.containsAddr a = true
      · rw [if_pos hc] at h
        rcases Option.some.injEq .. ▸ h with h2
        exact ⟨h2 ▸ List.mem_cons_self _ _, h2 ▸ hc⟩
      · rw [if_neg hc] at h
        exact absurd h (by simp)
    | some b2 =>
      rw [longest_match_cons_some e ht] at h
      by_cases hc : e.1.containsAddr a = true ∧ b2.1.maskLen < e.1.maskLen
      · rw [if_pos hc] at h
        rcases Option.some.injEq .. ▸ h with h2
        exact ⟨h2 ▸ List.mem_cons_self _ _, h2 ▸ hc.1⟩
      · rw [if_neg hc] at h
        rcases Option.some.injEq .. ▸ h with h2
        rcases ih (h2 ▸ ht) with ⟨h3, h4⟩
        exact ⟨List.mem_cons_of_mem _ h3, h4⟩

theorem longest_match_eq_none_iff (l : AllowList) (a : IpAddr) :
    longest_match l a = none ↔ ∀ e ∈ l, e.1.containsAddr a = false := by
  induction l with
  | nil => simp [longest_match]
  | cons e t ih =>
    cases ht : longest_match t a with
    | none =>
      rw [longest_match_cons_none e ht]
      have htail : ∀ e2 ∈ t, e2.1.containsAddr a = false := ih.mp ht
      by_cases hc : e.1.containsAddr a = true
      · rw [if_pos hc]
        constructor
        · intro h
          exact absurd h (by simp)
        · intro h
          exact absurd (h e (List.mem_cons_self _ _)) (by simp [hc])
      · rw [if_neg hc]
        constructor
        · intro _ e2 he2
          rcases List.mem_cons.mp he2 with h1 | h1
          · exact h1 ▸ Bool.eq_false_iff.mpr hc
          · exact htail e2 h1
        · intro _
          rfl
    | some b =>
      rw [longest_match_cons_some e ht]
      rcases longest_match_mem ht with ⟨hmem, hcon⟩
      constructor
      · intro h
        by_cases hc : e.1.containsAddr a = true ∧ b.1.maskLen < e.1.maskLen
        · rw [if_pos hc] at h
          exact absurd h (by simp)
        · rw [if_neg hc] at h
          exact absurd h (by simp)
      · intro h
        exact absurd hcon (by simp [h b (List.mem_cons_of_mem _ hmem)])

theorem longest_match_isSome_iff (l : AllowList) (a : IpAddr) :
    (longest_match l a).isSome = true ↔ ∃ e ∈ l, e.1.containsAddr a = true := by
  rw [Option.isSome_iff_ne_none]
  constructor
  · intro h
    by_contra hno
    push_neg at hno
    exact h ((longest_match_eq_none_iff l a).mpr fun e he =>
      Bool.eq_false_iff.mpr (hno e he))
  · rintro ⟨e, he, hc⟩ hnone
    rw [longest_match_eq_none_iff] at hnone
    simp [hnone e he] at hc

/-! ### Allow-list lemmas -/

theorem mem_removeResourceList {rid : ResourceId} {l : AllowList}
    {e : IpNetwork × Finset ResourceId} :
    e ∈ removeResourceList rid l ↔
      (∃ e0 ∈ l, e = (if rid ∈ e0.2 then (e0.1, e0.2.erase rid) else e0)) ∧ e.2 ≠ ∅ := by
  constructor
  · intro h
    rw [removeResourceList, List.mem_filter] at h
    rcases h with ⟨h1, h2⟩
    rcases List.mem_map.mp h1 with ⟨e0, he0, heq⟩
    exact ⟨⟨e0, he0, heq.symm⟩, by simpa using h2⟩
  · rintro ⟨⟨e0, he0, heq⟩, hne⟩
    rw [removeResourceList, List.mem_filter]
    exact ⟨List.mem_map.mpr ⟨e0, he0, heq.symm⟩, by simpa using hne⟩

/-! ### Upsert branch lemmas -/

theorem upsert_absent {TId P : Type} [DecidableEq TId] [Peer P] (s : PeerStore TId P)
    (pid : TId) (peer : P) (h : mapLookup pid s.peer_by_id = none) :
    s.upsert pid peer =
      (PeerStore.mk
        (mapInsert (IpAddr.v6 (Peer.tun_ipv6 peer)) pid
          (mapInsert (IpAddr.v4 (Peer.tun_ipv4 peer)) pid s.id_by_ip))
        (mapInsert pid peer s.peer_by_id), peer) := by
  rw [PeerStore.upsert]
  simp [h]

theorem upsert_same {TId P : Type} [DecidableEq TId] [Peer P] {s : PeerStore TId P}
    {pid : TId} {peer q : P} (h : mapLookup pid s.peer_by_id = some q)
    (h4 : Peer.tun_ipv4 q = Peer.tun_ipv4 peer) (h6 : Peer.tun_ipv6 q = Peer.tun_ipv6 peer) :
    s.upsert pid peer =
      (PeerStore.mk
        (mapInsert (IpAddr.v6 (Peer.tun_ipv6 q)) pid
          (mapInsert (IpAddr.v4 (Peer.tun_ipv4 q)) pid s.id_by_ip))
        s.peer_by_id, q) := by
  rw [PeerStore.upsert]
  simp [h, h4, h6]

theorem upsert_replace {TId P : Type} [DecidableEq TId] [Peer P] {s : PeerStore TId P}
    {pid : TId} {peer q : P} (h : mapLookup pid s.peer_by_id = some q)
    (hne : Peer.tun_ipv4 q ≠ Peer.tun_ipv4 peer ∨ Peer.tun_ipv6 q ≠ Peer.tun_ipv6 peer) :
    s.upsert pid peer =
      (PeerStore.mk
        (mapInsert (IpAddr.v6 (Peer.tun_ipv6 peer)) pid
          (mapInsert (IpAddr.v4 (Peer.tun_ipv4 peer)) pid
            (mapErase (IpAddr.v6 (Peer.tun_ipv6 q))
              (mapErase (IpAddr.v4 (Peer.tun_ipv4 q)) s.id_by_ip))))
        (mapInsert pid peer (mapErase pid s.peer_by_id)), peer) := by
  rw [PeerStore.upsert]
  simp [h, hne, mapLookup_erase_self]

theorem upsert_ret_tun {TId P : Type} [DecidableEq TId] [Peer P] (s : PeerStore TId P)
    (pid : TId) (peer : P) :
    Peer.tun_ipv4 (s.upsert pid peer).2 = Peer.tun_ipv4 peer ∧
      Peer.tun_ipv6 (s.upsert pid peer).2 = Peer.tun_ipv6 peer := by
  cases h : mapLookup pid s.peer_by_id with
  | none => rw [upsert_absent s pid peer h]; exact ⟨rfl, rfl⟩
  | some q =>
    by_cases h4 : Peer.tun_ipv4 q = Peer.tun_ipv4 peer
    · by_cases h6 : Peer.tun_ipv6 q = Peer.tun_ipv6 peer
      · rw [upsert_same h h4 h6]
        exact ⟨h4, h6⟩
      · rw [upsert_replace h (Or.inr h6)]
        exact ⟨rfl, rfl⟩
    · rw [upsert_replace h (Or.inl h4)]
      exact ⟨rfl, rfl⟩

theorem upsert_lookup_self {TId P : Type} [DecidableEq TId] [Peer P] (s : PeerStore TId P)
    (pid : TId) (peer : P) :
    mapLookup pid (s.upsert pid peer).1.peer_by_id = some (s.upsert pid peer).2 := by
  cases h : mapLookup pid s.peer_by_id with
  | none => rw [upsert_absent s pid peer h]; exact mapLookup_insert_self ..
  | some q =>
    by_cases h4 : Peer.tun_ipv4 q = Peer.tun_ipv4 peer
    · by_cases h6 : Peer.tun_ipv6 q = Peer.tun_ipv6 peer
      · rw [upsert_same h h4 h6]
        exact h
      · rw [upsert_replace h (Or.inr h6)]
        exact mapLookup_insert_self ..
    · rw [upsert_replace h (Or.inl h4)]
      exact mapLookup_insert_self ..

theorem upsert_lookup_other {TId P : Type} [DecidableEq TId] [Peer P] (s : PeerStore TId P)
    (pid : TId) (peer : P) {id : TId} (hid : id ≠ pid) :
    mapLookup id (s.upsert pid peer).1.peer_by_id = mapLookup id s.peer_by_id := by
  cases h : mapLookup pid s.peer_by_id with
  | none => rw [upsert_absent s pid peer h]; exact mapLookup_insert_other _ _ hid
  | some q =>
    by_cases h4 : Peer.tun_ipv4 q = Peer.tun_ipv4 peer
    · by_cases h6 : Peer.tun_ipv6 q = Peer.tun_ipv6 peer
      · rw [upsert_same h h4 h6]
      · rw [upsert_replace h (Or.inr h6)]
        rw [mapLookup_insert_other _ _ hid, mapLookup_erase_other _ hid]
    · rw [upsert_replace h (Or.inl h4)]
      rw [mapLookup_insert_other _ _ hid, mapLookup_erase_other _ hid]

theorem upsert_addr_lookup {TId P : Type} [DecidableEq TId] [Peer P] (s : PeerStore TId P)
    (pid : TId) (peer : P) :
    mapLookup (IpAddr.v4 (Peer.tun_ipv4 (s.upsert pid peer).2))
        (s.upsert pid peer).1.id_by_ip = some pid ∧
      mapLookup (IpAddr.v6 (Peer.tun_ipv6 (s.upsert pid peer).2))
        (s.upsert pid peer).1.id_by_ip = some pid := by
  have hv : ∀ a b : Nat, IpAddr.v4 a ≠ IpAddr.v6 b := fun a b h => by cases h
  cases h : mapLookup pid s.peer_by_id with
  | none =>
    rw [upsert_absent s pid peer h]
    exact ⟨by rw [mapLookup_insert_other _ _ (hv _ _), mapLookup_insert_self],
      mapLookup_insert_self ..⟩
  | some q =>
    by_cases h4 : Peer.tun_ipv4 q = Peer.tun_ipv4 peer
    · by_cases h6 : Peer.tun_ipv6 q = Peer.tun_ipv6 peer
      · rw [upsert_same h h4 h6]
        exact ⟨by rw [mapLookup_insert_other _ _ (hv _ _), mapLookup_insert_self],
          mapLookup_insert_self ..⟩
      · rw [upsert_replace h (Or.inr h6)]
        exact ⟨by rw [mapLookup_insert_other _ _ (hv _ _), mapLookup_insert_self],
          mapLookup_insert_self ..⟩
    · rw [upsert_replace h (Or.inl h4)]
      exact ⟨by rw [mapLookup_insert_other _ _ (hv _ _), mapLookup_insert_self],
        mapLookup_insert_self ..⟩

/-! ### Address-index invariant preservation -/

theorem addrInv_upsert_replace_aux {TId P : Type} [DecidableEq TId] [Peer P]
    {s : PeerStore TId P} {pid : TId} {peer q : P} (hinv : AddrInv s)
    (h : mapLookup pid s.peer_by_id = some q)
    (hne : Peer.tun_ipv4 q ≠ Peer.tun_ipv4 peer ∨ Peer.tun_ipv6 q ≠ Peer.tun_ipv6 peer) :
    AddrInv (s.upsert pid peer).1 := by
  rw [upsert_replace h hne]
  intro a id hmem
  rcases mem_mapInsert hmem with heq | hmem1
  · injection heq with ha hid
    subst ha
    subst hid
    exact ⟨peer, mapLookup_insert_self .., Or.inr rfl⟩
  · rcases mem_mapInsert hmem1 with heq | hmem2
    · injection heq with ha hid
      subst ha
      subst hid
      exact ⟨peer, mapLookup_insert_self .., Or.inl rfl⟩
    · rcases mem_mapErase.mp hmem2 with ⟨hmem3, hne6⟩
      rcases mem_mapErase.mp hmem3 with ⟨hmem4, hne4⟩
      rcases hinv a id hmem4 with ⟨p, hp, haddr⟩
      by_cases hid : id = pid
      · subst hid
        rw [h] at hp
        injection hp with hqp
        subst hqp
        rcases haddr with h1 | h1
        · exact absurd h1 hne4
        · exact absurd h1 hne6
      · refine ⟨p, ?_, haddr⟩
        rw [mapLookup_insert_other _ _ hid, mapLookup_erase_other _ hid]
        exact hp

theorem addrInv_upsert {TId P : Type} [DecidableEq TId] [Peer P] {s : PeerStore TId P}
    (hinv : AddrInv s) (pid : TId) (peer : P) : AddrInv (s.upsert pid peer).1 := by
  cases h : mapLookup pid s.peer_by_id with
  | none =>
    rw [upsert_absent s pid peer h]
    intro a id hmem
    rcases mem_mapInsert hmem with heq | hmem1
    · injection heq with ha hid
      subst ha
      subst hid
      exact ⟨peer, mapLookup_insert_self .., Or.inr rfl⟩
    · rcases mem_mapInsert hmem1 with heq | hmem2
      · injection heq with ha hid
        subst ha
        subst hid
        exact ⟨peer, mapLookup_insert_self .., Or.inl rfl⟩
      · rcases hinv a id hmem2 with ⟨p, hp, haddr⟩
        by_cases hid : id = pid
        · subst hid
          rw [hp] at h
          exact Option.noConfusion h
        · refine ⟨p, ?_, haddr⟩
          rw [mapLookup_insert_other _ _ hid]
          exact hp
  | some q =>
    by_cases h4 : Peer.tun_ipv4 q = Peer.tun_ipv4 peer
    · by_cases h6 : Peer.tun_ipv6 q = Peer.tun_ipv6 peer
      · rw [upsert_same h h4 h6]
        intro a id hmem
        rcases mem_mapInsert hmem with heq | hmem1
        · injection heq with ha hid
          subst ha
          subst hid
          exact ⟨q, h, Or.inr rfl⟩
        · rcases mem_mapInsert hmem1 with heq | hmem2
          · injection heq with ha hid
            subst ha
            subst hid
            exact ⟨q, h, Or.inl rfl⟩
          · exact hinv a id hmem2
      · exact addrInv_upsert_replace_aux hinv h (Or.inr h6)
    · exact addrInv_upsert_replace_aux hinv h (Or.inl h4)

theorem addrInv_remove {TId P : Type} [DecidableEq TId] [Peer P] {s : PeerStore TId P}
    (hinv : AddrInv s) (id : TId) : AddrInv (s.remove id).1 := by
  intro a id2 hmem
  simp only [PeerStore.remove, List.mem_filter, decide_eq_true_eq] at hmem
  rcases hmem with ⟨hmem0, hid2⟩
  rcases hinv a id2 hmem0 with ⟨p, hp, haddr⟩
  refine ⟨p, ?_, haddr⟩
  show mapLookup id2 (mapErase id s.peer_by_id) = some p
  rw [mapLookup_erase_other _ hid2]
  exact hp

theorem addrInv_extract_if {TId P : Type} [DecidableEq TId] [Peer P] {s : PeerStore TId P}
    (hn : (s.peer_by_id.map Prod.fst).Nodup) (hinv : AddrInv s) (f : TId → P → Bool) :
    AddrInv (s.extract_if f).1 := by
  intro a id hmem
  simp only [PeerStore.extract_if, List.mem_filter] at hmem
  rcases hmem with ⟨hmem0, hsome⟩
  rcases Option.isSome_iff_exists.mp hsome with ⟨p2, hp2⟩
  have hmemp : (id, p2) ∈ s.peer_by_id := (List.mem_filter.mp (mapLookup_mem hp2)).1
  have hlook : mapLookup id s.peer_by_id = some p2 := mem_mapLookup_of_nodup hn hmemp
  rcases hinv a id hmem0 with ⟨p, hp, haddr⟩
  rw [hlook] at hp
  injection hp with hpp
  subst hpp
  exact ⟨p2, hp2, haddr⟩

theorem addrInv_clear {TId P : Type} [DecidableEq TId] [Peer P] (s : PeerStore TId P) :
    AddrInv s.clear := by
  intro a id hmem
  simp [PeerStore.clear] at hmem

/-! ### Allow-list helper for C7 -/

theorem allowInsert_nonempty {l : AllowList} (net : IpNetwork) (rid : ResourceId)
    (h : ∀ e ∈ l, e.2 ≠ ∅) : ∀ e ∈ allowInsert net rid l, e.2 ≠ ∅ := by
  induction l with
  | nil =>
    intro e he
    rw [allowInsert] at he
    rcases List.mem_singleton.mp he with rfl
    exact Finset.singleton_ne_empty rid
  | cons e0 t ih =>
    intro e he
    by_cases h0 : e0.1 = net
    · rw [allowInsert] at he
      simp only [h0, if_true] at he
      rcases List.mem_cons.mp he with rfl | h1
      · exact Finset.insert_ne_empty rid e0.2
      · exact h e (List.mem_cons_of_mem _ h1)
    · rw [allowInsert] at he
      simp only [h0, if_false] at he
      rcases List.mem_cons.mp he with rfl | h1
      · exact h e (List.mem_cons_self _ _)
      · exact ih (fun e2 he2 => h e2 (List.mem_cons_of_mem _ he2)) e h1

/-! ### Claim theorems -/

/-- C1: for every `GatewayOnClient` and packet, `ensure_allowed_src`
accepts when the source equals the route's own tunnel IPv4 or IPv6
address; otherwise it accepts iff some entry of the allow list matches
the source (equivalently, the longest-prefix match exists), and rejects
with `NotAllowedResource(source)` when no entry matches.  The spec
scenario: after `allow(10.0.0.0/24, R1)` on a fresh route, source
10.0.0.5 is accepted and source 10.0.1.5 is rejected. -/
theorem claim_C1_ensure_allowed_src (g : GatewayOnClient) (packet : IpPacket) :
    ((packet.source = IpAddr.v4 g.gateway_tun.v4 ∨
        packet.source = IpAddr.v6 g.gateway_tun.v6) →
      g.ensure_allowed_src packet = Except.ok ()) ∧
    (¬ (packet.source = IpAddr.v4 g.gateway_tun.v4 ∨
        packet.source = IpAddr.v6 g.gateway_tun.v6) →
      (g.ensure_allowed_src packet = Except.ok () ↔
        ∃ e ∈ g.allowed_ips, e.1.containsAddr packet.source = true) ∧
      ((∃ e ∈ g.allowed_ips, e.1.containsAddr packet.source = true) ↔
        (longest_match g.allowed_ips packet.source).isSome = true) ∧
      (longest_match g.allowed_ips packet.source = none →
        g.ensure_allowed_src packet = Except.error (NotAllowedResource.mk packet.source))) ∧
    gScenario.ensure_allowed_src (IpPacket.mk (IpAddr.v4 167772165)) = Except.ok () ∧
    gScenario.ensure_allowed_src (IpPacket.mk (IpAddr.v4 167772421)) =
      Except.error (NotAllowedResource.mk (IpAddr.v4 167772421)) := by
  refine ⟨?_, ?_, by rfl, by rfl⟩
  · intro hsrc
    have hip : g.gateway_tun.is_ip packet.source = true := by
      rcases hsrc with h | h <;> simp [IpConfig.is_ip, h]
    rw [GatewayOnClient.ensure_allowed_src]
    simp [hip]
  · intro hsrc
    have hip : g.gateway_tun.is_ip packet.source = false := by
      push_neg at hsrc
      simp [IpConfig.is_ip, hsrc.1, hsrc.2]
    refine ⟨?_, (longest_match_isSome_iff ..).symm, ?_⟩
    · cases hlm : longest_match g.allowed_ips packet.source with
      | none =>
        have hall := (longest_match_eq_none_iff ..).mp hlm
        rw [GatewayOnClient.ensure_allowed_src]
        simp only [hip, Bool.false_eq_true, if_false, hlm, Option.isNone_none, if_true]
        constructor
        · intro h
          exact absurd h (by simp)
        · rintro ⟨e, he, hc⟩
          rw [hall e he] at hc
          exact absurd hc (by simp)
      | some b =>
        rcases longest_match_mem hlm with ⟨hmem, hcon⟩
        rw [GatewayOnClient.ensure_allowed_src]
        simp only [hip, Bool.false_eq_true, if_false, hlm, Option.isNone_some]
        constructor
        · intro _
          exact ⟨b, hmem, hcon⟩
        · intro _
          trivial
    · intro hlm
      rw [GatewayOnClient.ensure_allowed_src]
      simp [hip, hlm]

/-- C1 witness: the universal part applied to the scenario route and the
packet with source 10.0.1.5, discharging both hypotheses concretely. -/
theorem claim_C1_witness :
    gScenario.ensure_allowed_src (IpPacket.mk (IpAddr.v4 167772421)) =
      Except.error (NotAllowedResource.mk (IpAddr.v4 167772421)) :=
  ((claim_C1_ensure_allowed_src gScenario (IpPacket.mk (IpAddr.v4 167772421))).2.1
    (by decide)).2.2 (by decide)

/-- C2: `remove_resource(r)` leaves no surviving entry containing `r` and
no empty entry; an entry with remaining resources survives with exactly
`r` erased; an entry not containing `r` (and non-empty) is untouched; and
afterwards a non-own-address source covered only by entries whose grants
were at most `{r}` is rejected. -/
theorem claim_C2_remove_resource (g : GatewayOnClient) (r : ResourceId) :
    (∀ e ∈ removeResourceList r g.allowed_ips, r ∉ e.2 ∧ e.2 ≠ ∅) ∧
    (∀ e ∈ g.allowed_ips, r ∈ e.2 → e.2.erase r ≠ ∅ →
      (e.1, e.2.erase r) ∈ removeResourceList r g.allowed_ips) ∧
    (∀ e ∈ g.allowed_ips, r ∉ e.2 → e.2 ≠ ∅ →
      e ∈ removeResourceList r g.allowed_ips) ∧
    (∀ packet : IpPacket, g.gateway_tun.is_ip packet.source = false →
      (∀ e ∈ g.allowed_ips, e.1.containsAddr packet.source = true → e.2 ⊆ {r}) →
      (g.remove_resource r).ensure_allowed_src packet =
        Except.error (NotAllowedResource.mk packet.source)) := by
  refine ⟨?_, ?_, ?_, ?_⟩
  · intro e he
    rcases mem_removeResourceList.mp he with ⟨⟨e0, he0, heq⟩, hne⟩
    by_cases hr : r ∈ e0.2
    · rw [if_pos hr] at heq
      subst heq
      exact ⟨Finset.not_mem_erase _ _, hne⟩
    · rw [if_neg hr] at heq
      subst heq
      exact ⟨hr, hne⟩
  · intro e he hr hne
    exact mem_removeResourceList.mpr ⟨⟨e, he, by rw [if_pos hr]⟩, hne⟩
  · intro e he hr hne
    exact mem_removeResourceList.mpr ⟨⟨e, he, by rw [if_neg hr]⟩, hne⟩
  · intro packet hip hcov
    have hnone : longest_match (removeResourceList r g.allowed_ips) packet.source = none := by
      rw [longest_match_eq_none_iff]
      intro e he
      by_contra hc
      rw [Bool.not_eq_false] at hc
      rcases mem_removeResourceList.mp he with ⟨⟨e0, he0, heq⟩, hne⟩
      have hc0 : e0.1.containsAddr packet.source = true := by
        by_cases hr : r ∈ e0.2
        · rw [if_pos hr] at heq
          rw [heq] at hc
          exact hc
        · rw [if_neg hr] at heq
          rw [heq] at hc
          exact hc
      have hsub : e0.2 ⊆ {r} := hcov e0 he0 hc0
      rcases Finset.subset_singleton_iff.mp hsub with h0 | h0
      · by_cases hr : r ∈ e0.2
        · rw [h0] at hr
          exact absurd hr (Finset.not_mem_empty r)
        · rw [if_neg hr] at heq
          exact hne (heq ▸ h0)
      · have hr : r ∈ e0.2 := h0 ▸ Finset.mem_singleton_self r
        rw [if_pos hr] at heq
        subst heq
        exact hne (by rw [h0]; simp)
    rw [GatewayOnClient.remove_resource, GatewayOnClient.ensure_allowed_src]
    simp only at *
    simp [hip, hnone]

/-- C2 witness: on a route granting 10.0.0.0/24 by {1, 2} and
192.168.0.0/24 by {2} alone, revoking resource 2 rejects source
192.168.0.7, previously covered only by the revoked-away entry. -/
theorem claim_C2_witness :
    (gTwo.remove_resource 2).ensure_allowed_src (IpPacket.mk (IpAddr.v4 3232235527)) =
      Except.error (NotAllowedResource.mk (IpAddr.v4 3232235527)) :=
  (claim_C2_remove_resource gTwo 2).2.2.2 (IpPacket.mk (IpAddr.v4 3232235527))
    (by rfl) (by decide)

/-- C5 counterexample: on a state holding the entry 10.0.0.0/24 with an
*empty* resource set, that entry is the longest-prefix match for source
10.0.0.5, the source is not an own tunnel address, and yet
`ensure_allowed_src` returns `Ok(())` — the emptied-but-not-yet-pruned
entry *grants* access rather than denying it, because `longest_match`
never inspects the resource set attached to an entry. -/
theorem claim_C5_counterexample :
    longest_match gEmptyEntry.allowed_ips (IpAddr.v4 167772165) =
        some (IpNetwork.v4 167772160 24, (∅ : Finset ResourceId)) ∧
    gEmptyEntry.gateway_tun.is_ip (IpAddr.v4 167772165) = false ∧
    gEmptyEntry.ensure_allowed_src (IpPacket.mk (IpAddr.v4 167772165)) = Except.ok () ∧
    gEmptyEntry.ensure_allowed_src (IpPacket.mk (IpAddr.v4 167772165)) ≠
      Except.error (NotAllowedResource.mk (IpAddr.v4 167772165)) := by
  have hok : gEmptyEntry.ensure_allowed_src (IpPacket.mk (IpAddr.v4 167772165)) =
      Except.ok () := by rfl
  refine ⟨by rfl, by rfl, hok, ?_⟩
  rw [hok]
  simp

/-- C5 amended: if an entry with an empty resource set is the
longest-prefix match for a non-own-address source, `ensure_allowed_src`
returns `Ok(())` (grants) — not an error as the claim stated. -/
theorem claim_C5_empty_entry_grants (g : GatewayOnClient) (packet : IpPacket)
    (net : IpNetwork) (hip : g.gateway_tun.is_ip packet.source = false)
    (hlm : longest_match g.allowed_ips packet.source = some (net, (∅ : Finset ResourceId))) :
    g.ensure_allowed_src packet = Except.ok () := by
  rw [GatewayOnClient.ensure_allowed_src]
  simp [hip, hlm]

/-- C5 witness: the amended theorem applied to the concrete
emptied-entry route and source 10.0.0.5. -/
theorem claim_C5_witness :
    gEmptyEntry.ensure_allowed_src (IpPacket.mk (IpAddr.v4 167772165)) = Except.ok () :=
  claim_C5_empty_entry_grants gEmptyEntry (IpPacket.mk (IpAddr.v4 167772165))
    (IpNetwork.v4 167772160 24) (by rfl) (by rfl)

/-- C7: if no entry of the allow table has an empty resource set, the
same holds after `allow_ip_for_resource` and after `remove_resource`. -/
theorem claim_C7_no_empty_entry (g : GatewayOnClient) (net : IpNetwork)
    (rid r2 : ResourceId) (h : ∀ e ∈ g.allowed_ips, e.2 ≠ ∅) :
    (∀ e ∈ (g.allow_ip_for_resource net rid).allowed_ips, e.2 ≠ ∅) ∧
    (∀ e ∈ (g.remove_resource r2).allowed_ips, e.2 ≠ ∅) := by
  constructor
  · exact allowInsert_nonempty net rid h
  · intro e he
    exact (mem_removeResourceList.mp he).2

/-- C7 witness: the theorem applied to the concrete two-entry route. -/
theorem claim_C7_witness :
    (∀ e ∈ (gTwo.allow_ip_for_resource (IpNetwork.v4 0 0) 9).allowed_ips, e.2 ≠ ∅) ∧
    (∀ e ∈ (gTwo.remove_resource 2).allowed_ips, e.2 ≠ ∅) :=
  claim_C7_no_empty_entry gTwo (IpNetwork.v4 0 0) 9 2 (by decide)

/-- C9: `tun_dns_server_endpoint` returns the route's own tunnel IPv4
address for an IPv4 destination and its own tunnel IPv6 address for an
IPv6 destination, at the fixed tunnel-internal DNS port, independently
of the allow-list contents. -/
theorem claim_C9_dns_endpoint (g : GatewayOnClient) (dst : IpAddr) :
    (g.tun_dns_server_endpoint dst).port = TUN_DNS_PORT ∧
    (∀ a, dst = IpAddr.v4 a →
      (g.tun_dns_server_endpoint dst).ip = IpAddr.v4 g.gateway_tun.v4) ∧
    (∀ a, dst = IpAddr.v6 a →
      (g.tun_dns_server_endpoint dst).ip = IpAddr.v6 g.gateway_tun.v6) ∧
    (∀ l : AllowList,
      (GatewayOnClient.mk g.id g.gateway_tun l).tun_dns_server_endpoint dst =
        g.tun_dns_server_endpoint dst) := by
  refine ⟨?_, ?_, ?_, ?_⟩ <;> cases dst <;>
    simp [GatewayOnClient.tun_dns_server_endpoint]

/-- C9 witness: concrete IPv4 and IPv6 destinations on the two-entry
route. -/
theorem claim_C9_witness :
    (gTwo.tun_dns_server_endpoint (IpAddr.v4 0)).ip = IpAddr.v4 gTwo.gateway_tun.v4 ∧
    (gTwo.tun_dns_server_endpoint (IpAddr.v6 0)).ip = IpAddr.v6 gTwo.gateway_tun.v6 ∧
    (gTwo.tun_dns_server_endpoint (IpAddr.v6 0)).port = TUN_DNS_PORT :=
  ⟨(claim_C9_dns_endpoint gTwo (IpAddr.v4 0)).2.1 0 rfl,
    (claim_C9_dns_endpoint gTwo (IpAddr.v6 0)).2.2.1 0 rfl,
    (claim_C9_dns_endpoint gTwo (IpAddr.v6 0)).1⟩

theorem v4_ne_v6 (a b : Nat) : IpAddr.v4 a ≠ IpAddr.v6 b := fun h => by cases h

theorem v4_ne_v4_of_ne {a b : Nat} (h : a ≠ b) : IpAddr.v4 a ≠ IpAddr.v4 b :=
  fun hh => h (IpAddr.v4.inj hh)

theorem v6_ne_v6_of_ne {a b : Nat} (h : a ≠ b) : IpAddr.v6 a ≠ IpAddr.v6 b :=
  fun hh => h (IpAddr.v6.inj hh)

/-- C3: on any well-formed directory satisfying the address-index
invariant (every address entry points at a stored peer one of whose
current tunnel addresses it is), `upsert`, `remove`, `extract_if` and
`clear` all produce a state satisfying the invariant again. -/
theorem claim_C3_address_invariant {TId P : Type} [DecidableEq TId] [Peer P]
    (s : PeerStore TId P) (pid : TId) (peer : P) (id : TId) (f : TId → P → Bool)
    (hwf : StoreWF s) (hinv : AddrInv s) :
    AddrInv (s.upsert pid peer).1 ∧ AddrInv (s.remove id).1 ∧
      AddrInv (s.extract_if f).1 ∧ AddrInv s.clear :=
  ⟨addrInv_upsert hinv pid peer, addrInv_remove hinv id,
    addrInv_extract_if hwf.2 hinv f, addrInv_clear s⟩

/-- C3 witness: the concrete two-peer directory. -/
theorem claim_C3_witness :
    AddrInv ((sAB.upsert 5 dp5).1) ∧ AddrInv ((sAB.remove 5).1) ∧
      AddrInv ((sAB.extract_if fIs5).1) ∧ AddrInv (sAB.clear) :=
  claim_C3_address_invariant sAB 5 dp5 5 fIs5 (by constructor <;> decide)
    (by
      intro a id h
      simp only [sAB, List.mem_cons, List.not_mem_nil, or_false, Prod.mk.injEq] at h
      rcases h with ⟨rfl, rfl⟩ | ⟨rfl, rfl⟩ | ⟨rfl, rfl⟩ | ⟨rfl, rfl⟩
      · exact ⟨dp5, by rfl, Or.inl rfl⟩
      · exact ⟨dp5, by rfl, Or.inr rfl⟩
      · exact ⟨dp6, by rfl, Or.inl rfl⟩
      · exact ⟨dp6, by rfl, Or.inr rfl⟩)

/-- C4: after `upsert(id, p1)` then `upsert(id, p2)` with a different
tunnel address pair, id lookup returns the new peer, both of the new
peer's addresses resolve to it, and each of the old addresses that is
not also a new address no longer resolves. -/
theorem claim_C4_address_rotation {TId P : Type} [DecidableEq TId] [Peer P]
    (s : PeerStore TId P) (pid : TId) (p1 p2 : P)
    (hdiff : Peer.tun_ipv4 p1 ≠ Peer.tun_ipv4 p2 ∨ Peer.tun_ipv6 p1 ≠ Peer.tun_ipv6 p2) :
    ((s.upsert pid p1).1.upsert pid p2).1.lookupId pid = some p2 ∧
    ((s.upsert pid p1).1.upsert pid p2).1.peer_by_ip
      (IpAddr.v4 (Peer.tun_ipv4 p2)) = some p2 ∧
    ((s.upsert pid p1).1.upsert pid p2).1.peer_by_ip
      (IpAddr.v6 (Peer.tun_ipv6 p2)) = some p2 ∧
    (Peer.tun_ipv4 p1 ≠ Peer.tun_ipv4 p2 →
      ((s.upsert pid p1).1.upsert pid p2).1.peer_by_ip
        (IpAddr.v4 (Peer.tun_ipv4 p1)) = none) ∧
    (Peer.tun_ipv6 p1 ≠ Peer.tun_ipv6 p2 →
      ((s.upsert pid p1).1.upsert pid p2).1.peer_by_ip
        (IpAddr.v6 (Peer.tun_ipv6 p1)) = none) := by
  have hret := upsert_ret_tun s pid p1
  have hself := upsert_lookup_self s pid p1
  have hne2 : Peer.tun_ipv4 (s.upsert pid p1).2 ≠ Peer.tun_ipv4 p2 ∨
      Peer.tun_ipv6 (s.upsert pid p1).2 ≠ Peer.tun_ipv6 p2 := by
    rcases hdiff with h | h
    · exact Or.inl (by rw [hret.1]; exact h)
    · exact Or.inr (by rw [hret.2]; exact h)
  rw [upsert_replace hself hne2, hret.1, hret.2]
  refine ⟨?_, ?_, ?_, ?_, ?_⟩
  · simp only [PeerStore.lookupId]
    exact mapLookup_insert_self ..
  · simp only [PeerStore.peer_by_ip]
    have hib : mapLookup (IpAddr.v4 (Peer.tun_ipv4 p2))
        (mapInsert (IpAddr.v6 (Peer.tun_ipv6 p2)) pid
          (mapInsert (IpAddr.v4 (Peer.tun_ipv4 p2)) pid
            (mapErase (IpAddr.v6 (Peer.tun_ipv6 p1))
              (mapErase (IpAddr.v4 (Peer.tun_ipv4 p1))
                (s.upsert pid p1).1.id_by_ip)))) = some pid := by
      rw [mapLookup_insert_other _ _ (v4_ne_v6 _ _), mapLookup_insert_self]
    rw [hib]
    exact mapLookup_insert_self ..
  · simp only [PeerStore.peer_by_ip]
    rw [mapLookup_insert_self]
    exact mapLookup_insert_self ..
  · intro hne4
    simp only [PeerStore.peer_by_ip]
    have hib : mapLookup (IpAddr.v4 (Peer.tun_ipv4 p1))
        (mapInsert (IpAddr.v6 (Peer.tun_ipv6 p2)) pid
          (mapInsert (IpAddr.v4 (Peer.tun_ipv4 p2)) pid
            (mapErase (IpAddr.v6 (Peer.tun_ipv6 p1))
              (mapErase (IpAddr.v4 (Peer.tun_ipv4 p1))
                (s.upsert pid p1).1.id_by_ip)))) = none := by
      rw [mapLookup_insert_other _ _ (v4_ne_v6 _ _),
        mapLookup_insert_other _ _ (v4_ne_v4_of_ne hne4),
        mapLookup_erase_other _ (v4_ne_v6 _ _), mapLookup_erase_self]
    rw [hib]
    rfl
  · intro hne6
    simp only [PeerStore.peer_by_ip]
    have hib : mapLookup (IpAddr.v6 (Peer.tun_ipv6 p1))
        (mapInsert (IpAddr.v6 (Peer.tun_ipv6 p2)) pid
          (mapInsert (IpAddr.v4 (Peer.tun_ipv4 p2)) pid
            (mapErase (IpAddr.v6 (Peer.tun_ipv6 p1))
              (mapErase (IpAddr.v4 (Peer.tun_ipv4 p1))
                (s.upsert pid p1).1.id_by_ip)))) = none := by
      rw [mapLookup_insert_other _ _ (v6_ne_v6_of_ne hne6),
        mapLookup_insert_other _ _ (fun h => v4_ne_v6 _ _ h.symm),
        mapLookup_erase_self]
    rw [hib]
    rfl

/-- C4 witness: rotating peer 5's IPv4 address from 11 to 13 in an
initially empty directory. -/
theorem claim_C4_witness :
    ((emptyStore.upsert 5 dp1).1.upsert 5 dp2).1.lookupId 5 = some dp2 ∧
    ((emptyStore.upsert 5 dp1).1.upsert 5 dp2).1.peer_by_ip (IpAddr.v4 11) = none := by
  have h := claim_C4_address_rotation emptyStore 5 dp1 dp2 (Or.inl (by decide))
  exact ⟨h.1, h.2.2.2.1 (by decide)⟩

/-- C6: `extract_if` removes and returns exactly the peers satisfying
the predicate; the address index keeps exactly the entries of surviving
ids and drops those of removed ids; every peer that survives still
resolves by id, and by any address that resolved to it before. -/
theorem claim_C6_extract_if {TId P : Type} [DecidableEq TId] (s : PeerStore TId P)
    (f : TId → P → Bool) :
    (∀ id p, (id, p) ∈ (s.extract_if f).2 ↔ ((id, p) ∈ s.peer_by_id ∧ f id p = true)) ∧
    (∀ id p, (id, p) ∈ (s.extract_if f).1.peer_by_id ↔
      ((id, p) ∈ s.peer_by_id ∧ f id p = false)) ∧
    (∀ a id, (a, id) ∈ (s.extract_if f).1.id_by_ip ↔
      ((a, id) ∈ s.id_by_ip ∧
        (mapLookup id (s.extract_if f).1.peer_by_id).isSome = true)) ∧
    (∀ id p, mapLookup id s.peer_by_id = some p → f id p = false →
      mapLookup id (s.extract_if f).1.peer_by_id = some p) ∧
    (∀ a id p, mapLookup a s.id_by_ip = some id → mapLookup id s.peer_by_id = some p →
      f id p = false → (s.extract_if f).1.peer_by_ip a = some p) := by
  refine ⟨?_, ?_, ?_, ?_, ?_⟩
  · intro id p
    simp [PeerStore.extract_if, List.mem_filter]
  · intro id p
    simp [PeerStore.extract_if, List.mem_filter]
  · intro a id
    simp [PeerStore.extract_if, List.mem_filter]
  · intro id p h hf
    exact mapLookup_filter_of _ h (by simp [hf])
  · intro a id p h1 h2 hf
    have h4 : mapLookup id (s.peer_by_id.filter fun e => ! f e.1 e.2) = some p :=
      mapLookup_filter_of _ h2 (by simp [hf])
    have hib : mapLookup a (s.id_by_ip.filter fun e =>
        (mapLookup e.2 (s.peer_by_id.filter fun e2 => ! f e2.1 e2.2)).isSome) = some id :=
      mapLookup_filter_of _ h1 (by rw [h4]; rfl)
    simp only [PeerStore.extract_if, PeerStore.peer_by_ip]
    rw [hib]
    exact h4

/-- C6 witness: the spec scenario — peers {5, 6}, removing exactly peer
5 returns `[(5, peer5)]` while peer 6 still resolves by id and by its
address. -/
theorem claim_C6_witness :
    (sAB.extract_if fIs5).2 = [(5, dp5)] ∧
    (sAB.extract_if fIs5).1.peer_by_ip (IpAddr.v4 103) = some dp6 ∧
    mapLookup 6 (sAB.extract_if fIs5).1.peer_by_id = some dp6 := by
  refine ⟨by rfl, ?_, ?_⟩
  · exact (claim_C6_extract_if sAB fIs5).2.2.2.2 (IpAddr.v4 103) 6 dp6
      (by rfl) (by rfl) (by rfl)
  · exact (claim_C6_extract_if sAB fIs5).2.2.2.1 6 dp6 (by rfl) (by rfl)

/-- C8: two `upsert`s for the same id whose peers carry the same tunnel
address pair: the second call returns the peer stored by the first call
(the candidate is discarded), and both the address index and the peer
map are unchanged by the second call. -/
theorem claim_C8_idempotent_upsert {TId P : Type} [DecidableEq TId] [Peer P]
    (s : PeerStore TId P) (pid : TId) (p1 p2 : P)
    (h4 : Peer.tun_ipv4 p1 = Peer.tun_ipv4 p2) (h6 : Peer.tun_ipv6 p1 = Peer.tun_ipv6 p2) :
    ((s.upsert pid p1).1.upsert pid p2).2 = (s.upsert pid p1).2 ∧
    ((s.upsert pid p1).1.upsert pid p2).1.id_by_ip = (s.upsert pid p1).1.id_by_ip ∧
    ((s.upsert pid p1).1.upsert pid p2).1.peer_by_id = (s.upsert pid p1).1.peer_by_id := by
  have hret := upsert_ret_tun s pid p1
  have hself := upsert_lookup_self s pid p1
  have hlk := upsert_addr_lookup s pid p1
  have hq4 : Peer.tun_ipv4 (s.upsert pid p1).2 = Peer.tun_ipv4 p2 := by rw [hret.1, h4]
  have hq6 : Peer.tun_ipv6 (s.upsert pid p1).2 = Peer.tun_ipv6 p2 := by rw [hret.2, h6]
  rw [upsert_same hself hq4 hq6, mapInsert_self hlk.1, mapInsert_self hlk.2]
  exact ⟨rfl, rfl, rfl⟩

/-- C8 witness: two inserts of address-equal peers (with different
payloads) under id 9 into an empty directory. -/
theorem claim_C8_witness :
    ((emptyStore.upsert 9 dpA).1.upsert 9 dpB).2 = (emptyStore.upsert 9 dpA).2 ∧
    ((emptyStore.upsert 9 dpA).1.upsert 9 dpB).1.id_by_ip =
      (emptyStore.upsert 9 dpA).1.id_by_ip ∧
    ((emptyStore.upsert 9 dpA).1.upsert 9 dpB).1.peer_by_id =
      (emptyStore.upsert 9 dpA).1.peer_by_id :=
  claim_C8_idempotent_upsert emptyStore 9 dpA dpB rfl rfl

/-- C10: when `upsert(id2, p2)` indexes an address that already belongs
to a stored peer of a different id `id1`, the address silently redirects
to id2's stored peer, while id1's peer remains stored and still resolves
by id — last writer wins, no error is reported. -/
theorem claim_C10_shared_address {TId P : Type} [DecidableEq TId] [Peer P]
    (s : PeerStore TId P) (id1 id2 : TId) (q1 p2 : P) (a : IpAddr) (hne : id2 ≠ id1)
    (h1 : mapLookup id1 s.peer_by_id = some q1)
    (ha1 : a = IpAddr.v4 (Peer.tun_ipv4 q1) ∨ a = IpAddr.v6 (Peer.tun_ipv6 q1))
    (ha2 : a = IpAddr.v4 (Peer.tun_ipv4 p2) ∨ a = IpAddr.v6 (Peer.tun_ipv6 p2)) :
    mapLookup a (s.upsert id2 p2).1.id_by_ip = some id2 ∧
    (s.upsert id2 p2).1.peer_by_ip a = some ((s.upsert id2 p2).2) ∧
    (s.upsert id2 p2).1.lookupId id1 = some q1 := by
  have hlk := upsert_addr_lookup s id2 p2
  have hret := upsert_ret_tun s id2 p2
  have hib : mapLookup a (s.upsert id2 p2).1.id_by_ip = some id2 := by
    rcases ha2 with h | h
    · rw [h, ← hret.1]
      exact hlk.1
    · rw [h, ← hret.2]
      exact hlk.2
  refine ⟨hib, ?_, ?_⟩
  · simp only [PeerStore.peer_by_ip]
    rw [hib]
    exact upsert_lookup_self ..
  · simp only [PeerStore.lookupId]
    rw [upsert_lookup_other s id2 p2 (Ne.symm hne)]
    exact h1

/-- C10 witness: the directory holds peer 1 at IPv4 address 7; inserting
peer 2 that also reports IPv4 address 7 redirects the address to peer 2
while peer 1 still resolves by id. -/
theorem claim_C10_witness :
    mapLookup (IpAddr.v4 7) ((sOwner.upsert 2 dpShare).1.id_by_ip) = some 2 ∧
    (sOwner.upsert 2 dpShare).1.peer_by_ip (IpAddr.v4 7) =
      some ((sOwner.upsert 2 dpShare).2) ∧
    (sOwner.upsert 2 dpShare).1.lookupId 1 = some dpOwner :=
  claim_C10_shared_address sOwner 1 2 dpOwner dpShare (IpAddr.v4 7) (by decide)
    (by rfl) (Or.inl rfl) (Or.inl rfl)
